import Mathlib

/-
Verification development for the S3-compatible object-storage client whose
public surface is declared in src/utils/s3/client.hh.  The header declares
the types (s3::range, s3::client with its nested aws_creds, upload_sink and
readable_file) and the operations; the operation bodies are not part of the
staged sources, so each operation is modelled from the specification's
description of its behaviour and marked as such in its doc comment.
Remote state (the S3 endpoint) is made explicit as a `Server` value, and the
requests an operation sends are returned as an explicit trace where a claim
needs them.  Bytes are modelled as `List Nat`, machine integers as `Nat`
with explicit width predicates where a claim depends on the width.
-/

namespace s3

/-- Error taxonomy of the client, from the spec's error-handling design. -/
inductive S3Error where
  | NotFound
  | AuthError
  | TransportError
  | RangeError
  | TruncatedResponse
  | UploadError
  | SinkClosed
  | ClientClosed
  | Throttled
deriving DecidableEq, Repr

/-- Byte range, from src/utils/s3/client.hh lines 19-22:
`struct range with uint64_t off; size_t len`.  Field values are modelled as
unbounded naturals; fitting the declared machine width is the separate
predicate `range.wf` below. -/
structure range where
  off : Nat
  len : Nat
deriving DecidableEq, Repr

/-- `r` fits the declared field types of `s3::range`: `off` is a `uint64_t`
and `len` a `size_t`, which is also 64 bits wide on the 64-bit targets the
code is built for.  Nothing else is required of a `range` value. -/
def range.wf (r : range) : Prop :=
  r.off < 2 ^ 64 ∧ r.len < 2 ^ 64

/-- AWS credentials, from src/utils/s3/client.hh lines 25-29. -/
structure aws_creds where
  key : String
  secret : String
  region : String
deriving DecidableEq, Repr

/-- Client state, from src/utils/s3/client.hh lines 33-36: host, port,
optional credentials, and the HTTP transport, the last modelled by the one
bit the claims need, whether `close()` has torn it down. -/
structure client where
  host : String
  port : Int
  creds : Option aws_creds
  closed : Bool
deriving DecidableEq, Repr

/-- Modelled from the spec: the remote S3-compatible endpoint.  It holds the
stored objects, the in-progress multipart uploads (upload id to the list of
uploaded parts, each a part number with its bytes, in upload order), and the
next fresh upload id. -/
structure Server where
  objects : List (String × List Nat)
  uploads : List (Nat × List (Nat × List Nat))
  nextId : Nat
deriving DecidableEq, Repr

/-- First-match association-list lookup. -/
def alookup {α β : Type} [DecidableEq α] : List (α × β) → α → Option β
  | [], _ => none
  | (x, b) :: t, a => if x = a then some b else alookup t a

/-- An HTTP request as far as the claims observe it: method, object key and
the optional `Range` header. -/
structure HttpReq where
  method : String
  key : String
  rangeHdr : Option range
deriving DecidableEq, Repr

/-- Servers are well formed when every open upload id is below the next
fresh id, so initiating a new upload never collides with an open one. -/
def serverWF (sv : Server) : Prop :=
  ∀ p ∈ sv.uploads, p.1 < sv.nextId

/-- Modelled from the spec: `client::close` (declared at
src/utils/s3/client.hh line 54, body absent): releases the transport; all
subsequent operations observe the closed flag. -/
def close (c : client) : client :=
  { c with closed := true }

/-- Modelled from the spec: `client::put_object` on one contiguous buffer
(declared at src/utils/s3/client.hh line 47, body absent): a single PUT
storing the buffer as the object's new content. -/
def put_object (c : client) (sv : Server) (k : String) (buf : List Nat) :
    Server × Option S3Error :=
  if c.closed then (sv, some .ClientClosed)
  else ({ sv with objects := (k, buf) :: sv.objects }, none)

/-- The request body assembled by streaming an ordered sequence of
discontiguous memory regions, appended one after the other. -/
def gatherBody (bufs : List (List Nat)) : List Nat :=
  bufs.foldl (fun acc b => acc ++ b) []

/-- Modelled from the spec: `client::put_object` on a set of discontiguous
buffers (declared at src/utils/s3/client.hh line 48, body absent): same
contract as the contiguous overload, the regions concatenated into one
logical body without the caller pre-copying them. -/
def put_object_bufs (c : client) (sv : Server) (k : String)
    (bufs : List (List Nat)) : Server × Option S3Error :=
  if c.closed then (sv, some .ClientClosed)
  else ({ sv with objects := (k, gatherBody bufs) :: sv.objects }, none)

/-- Modelled from the spec: `client::get_object_size` (declared at
src/utils/s3/client.hh line 45, body absent): returns the object's total
byte length, `NotFound` when the key is absent. -/
def get_object_size (c : client) (sv : Server) (k : String) :
    Except S3Error Nat :=
  if c.closed then .error .ClientClosed
  else
    match alookup sv.objects k with
    | none => .error .NotFound
    | some obj => .ok obj.length

/-- Modelled from the spec: one GET exchange.  The request (with its
optional `Range` header) is sent; the server answers from its stored
objects; `tamper` stands for whatever bytes the transport actually
delivers in place of the true body; the client then validates the response
length exactly and reports `TruncatedResponse` on any mismatch, and a
range beyond the object's size is answered as `RangeError`.  Returns the
requests sent paired with the outcome. -/
def send_get (sv : Server) (k : String) (r : Option range)
    (tamper : List Nat → List Nat) :
    List HttpReq × Except S3Error (List Nat) :=
  let req : HttpReq := ⟨"GET", k, r⟩
  match alookup sv.objects k with
  | none => ([req], .error .NotFound)
  | some obj =>
    match r with
    | none =>
      let body := tamper obj
      if body.length = obj.length then ([req], .ok body)
      else ([req], .error .TruncatedResponse)
    | some rg =>
      if obj.length < rg.off + rg.len then ([req], .error .RangeError)
      else
        let body := tamper ((obj.drop rg.off).take rg.len)
        if body.length = rg.len then ([req], .ok body)
        else ([req], .error .TruncatedResponse)

/-- Modelled from the spec: the full ranged-GET path of
`client::get_object_contiguous` (declared at src/utils/s3/client.hh line
46, body absent).  When the object size is already known (`knownSize`),
a range whose end exceeds it is rejected as `RangeError` before any
request is sent; otherwise the exchange `send_get` runs. -/
def get_object_wire (c : client) (sv : Server) (k : String)
    (r : Option range) (knownSize : Option Nat)
    (tamper : List Nat → List Nat) :
    List HttpReq × Except S3Error (List Nat) :=
  if c.closed then ([], .error .ClientClosed)
  else
    match knownSize, r with
    | some sz, some rg =>
      if sz < rg.off + rg.len then ([], .error .RangeError)
      else send_get sv k r tamper
    | _, _ => send_get sv k r tamper

/-- `client::get_object_contiguous` as the caller sees it: no size cached
yet and an undisturbed transport. -/
def get_object_contiguous (c : client) (sv : Server) (k : String)
    (r : Option range) : Except S3Error (List Nat) :=
  (get_object_wire c sv k r none id).2

/-- Modelled from the spec: `client::delete_object` (declared at
src/utils/s3/client.hh line 49, body absent). -/
def delete_object (c : client) (sv : Server) (k : String) :
    Server × Option S3Error :=
  if c.closed then (sv, some .ClientClosed)
  else ({ sv with objects := sv.objects.filter (fun p => p.1 != k) }, none)

/-- The readable-file adapter: object key plus the lazily cached size. -/
structure readable_file where
  key : String
  cachedSize : Option Nat
deriving DecidableEq, Repr

/-- `client::make_readable_file`: no network activity, a bound handle. -/
def make_readable_file (k : String) : readable_file :=
  ⟨k, none⟩

/-- Modelled from the spec: a read on a readable file: a ranged GET through
the owning client, truncated only at end of file. -/
def file_read (c : client) (sv : Server) (f : readable_file)
    (off len : Nat) : Except S3Error (List Nat) :=
  if c.closed then .error .ClientClosed
  else
    match alookup sv.objects f.key with
    | none => .error .NotFound
    | some obj => .ok ((obj.drop off).take len)

/-- The expected length of a successful contiguous GET: the requested
length when a range was given, the full object length otherwise. -/
def requested_len (sv : Server) (k : String) (r : Option range) : Nat :=
  match r with
  | some rg => rg.len
  | none => ((alookup sv.objects k).getD []).length

/-- Modelled from the spec: SHA-256 is an external library primitive the
signer calls; it is modelled as a concrete deterministic digest of the
input string. -/
def sha256Model (s : String) : String :=
  let h := s.data.foldl (fun a ch => (a * 131 + ch.toNat + 7) % 2 ^ 64) 5381
  String.mk (Nat.toDigits 16 h)

/-- HMAC over the modelled hash: the keyed, chained construction. -/
def hmacModel (key msg : String) : String :=
  sha256Model (key ++ ":" ++ sha256Model (key ++ ":" ++ msg))

/-- The canonical request string: method, canonical URI, canonical query,
canonical headers, signed-header list and the body hash, newline joined. -/
structure request_descriptor where
  method : String
  canonicalUri : String
  canonicalQuery : String
  canonicalHeaders : String
  signedHeaders : String
  bodyHash : String
deriving DecidableEq, Repr

def canonicalRequest (d : request_descriptor) : String :=
  d.method ++ "\n" ++ d.canonicalUri ++ "\n" ++ d.canonicalQuery ++ "\n" ++
    d.canonicalHeaders ++ "\n" ++ d.signedHeaders ++ "\n" ++ d.bodyHash

/-- The credential scope: date, region, service, terminator. -/
def credentialScope (cr : aws_creds) (date : String) : String :=
  date ++ "/" ++ cr.region ++ "/s3/aws4_request"

/-- The signing key, derived by chained HMAC over date, region, service
and the terminator, scoped to the credentials' secret. -/
def signingKey (cr : aws_creds) (date : String) : String :=
  hmacModel
    (hmacModel (hmacModel (hmacModel ("AWS4" ++ cr.secret) date) cr.region)
      "s3")
    "aws4_request"

/-- The string to sign: algorithm, timestamp, scope and the hash of the
canonical request. -/
def stringToSign (cr : aws_creds) (ts : String) (d : request_descriptor) :
    String :=
  "AWS4-HMAC-SHA256" ++ "\n" ++ ts ++ "\n" ++
    credentialScope cr (ts.take 8) ++ "\n" ++ sha256Model (canonicalRequest d)

/-- The request signature: HMAC of the string to sign under the derived
signing key. -/
def signatureOf (cr : aws_creds) (ts : String) (d : request_descriptor) :
    String :=
  hmacModel (signingKey cr (ts.take 8)) (stringToSign cr ts d)

/-- The Authorization header value. -/
def authorizationHeader (cr : aws_creds) (ts : String)
    (d : request_descriptor) : String :=
  "AWS4-HMAC-SHA256 Credential=" ++ cr.key ++ "/" ++
    credentialScope cr (ts.take 8) ++ ", SignedHeaders=" ++
    d.signedHeaders ++ ", Signature=" ++ signatureOf cr ts d

/-- Modelled from the spec: `client::authorize` (declared at
src/utils/s3/client.hh line 40, body absent): SigV4 signing as a function
of the client's credentials, the timestamp and the canonical request
descriptor, emitting the `Authorization`, `x-amz-date` and
`x-amz-content-sha256` headers; with no credentials configured the request
goes out unsigned. -/
def authorize (c : client) (ts : String) (d : request_descriptor) :
    List (String × String) :=
  match c.creds with
  | none => []
  | some cr =>
    [("Authorization", authorizationHeader cr ts d),
     ("x-amz-date", ts),
     ("x-amz-content-sha256", d.bodyHash)]

/-- The upload sink's lifecycle states. -/
inductive UploadState where
  | Open
  | Finalizing
  | Completed
  | Aborted
deriving DecidableEq, Repr

/-- The upload-sink adapter (declared at src/utils/s3/client.hh line 31,
body absent): object key, part-size threshold, local buffer, lifecycle
state, the multipart upload id once initiated, the part numbers uploaded so
far in order, and the next part number. -/
structure upload_sink where
  key : String
  partThreshold : Nat
  buf : List Nat
  state : UploadState
  uploadId : Option Nat
  partNums : List Nat
  nextPart : Nat
deriving DecidableEq, Repr

/-- `client::make_upload_sink` (declared at src/utils/s3/client.hh line
52): no network activity, a bound handle in the `Open` state. -/
def make_upload_sink (k : String) (th : Nat) : upload_sink :=
  ⟨k, th, [], .Open, none, [], 1⟩

/-- Server side of one part upload: append the part to the named upload. -/
def addPart (sv : Server) (id n : Nat) (bytes : List Nat) : Server :=
  { sv with
      uploads := sv.uploads.map
        (fun p => if p.1 = id then (p.1, p.2 ++ [(n, bytes)]) else p) }

/-- Server side of multipart completion: given the ordered part-number
list, assemble the object from the uploaded parts.  The sink assigns part
numbers monotonically, so the stored upload order is part-number order;
the completion checks the sent list names exactly those parts. -/
def completeUpload (sv : Server) (k : String) (id : Nat)
    (nums : List Nat) : Server × Option S3Error :=
  match alookup sv.uploads id with
  | none => (sv, some .UploadError)
  | some ps =>
    if ps.map Prod.fst = nums then
      ({ sv with objects := (k, (ps.map Prod.snd).flatten) :: sv.objects },
        none)
    else (sv, some .UploadError)

/-- Server side of a multipart abort: the upload's state is removed. -/
def abortUpload (sv : Server) (id : Nat) : Server :=
  { sv with uploads := sv.uploads.filter (fun p => p.1 != id) }

/-- The outcome of one sink operation: the new sink, the new server state
and the error, if any. -/
structure SinkStep where
  sink : upload_sink
  server : Server
  err : Option S3Error
deriving DecidableEq, Repr

/-- Modelled from the spec: a sink write.  Only an `Open` sink accepts
writes (`SinkClosed` otherwise, `ClientClosed` once the owning client is
closed); the bytes append to the local buffer, and once the buffer reaches
the part-size threshold it is flushed as one more part of the multipart
upload, initiating the upload first when necessary. -/
def sink_write (c : client) (s : upload_sink) (sv : Server)
    (chunk : List Nat) : SinkStep :=
  if c.closed then ⟨s, sv, some .ClientClosed⟩
  else if s.state ≠ .Open then ⟨s, sv, some .SinkClosed⟩
  else
    if s.partThreshold ≤ (s.buf ++ chunk).length then
      match s.uploadId with
      | none =>
        ⟨{ s with buf := [], uploadId := some sv.nextId,
                  partNums := s.partNums ++ [s.nextPart],
                  nextPart := s.nextPart + 1 },
          addPart
            { sv with uploads := (sv.nextId, []) :: sv.uploads,
                      nextId := sv.nextId + 1 }
            sv.nextId s.nextPart (s.buf ++ chunk), none⟩
      | some id =>
        ⟨{ s with buf := [],
                  partNums := s.partNums ++ [s.nextPart],
                  nextPart := s.nextPart + 1 },
          addPart sv id s.nextPart (s.buf ++ chunk), none⟩
    else ⟨{ s with buf := s.buf ++ chunk }, sv, none⟩

/-- Modelled from the spec: finalize.  Only an `Open` sink may be
finalized; with no multipart upload initiated the whole buffer goes out as
one plain PUT, otherwise the remaining buffer is uploaded as the final
part and the ordered part list completes the upload.  `transportOk` is the
transport's verdict on the exchange: on failure the sink aborts any
initiated upload server side and ends `Aborted` reporting `UploadError`. -/
def sink_finalize (c : client) (transportOk : Bool) (s : upload_sink)
    (sv : Server) : SinkStep :=
  if c.closed then ⟨s, sv, some .ClientClosed⟩
  else if s.state ≠ .Open then ⟨s, sv, some .SinkClosed⟩
  else
    match s.uploadId with
    | none =>
      if transportOk then
        ⟨{ s with state := .Completed },
          { sv with objects := (s.key, s.buf) :: sv.objects }, none⟩
      else ⟨{ s with state := .Aborted }, sv, some .UploadError⟩
    | some id =>
      if transportOk then
        if s.buf.isEmpty then
          match completeUpload sv s.key id s.partNums with
          | (sv2, none) => ⟨{ s with state := .Completed }, sv2, none⟩
          | (sv2, some e) =>
            ⟨{ s with state := .Aborted }, abortUpload sv2 id, some e⟩
        else
          match completeUpload (addPart sv id s.nextPart s.buf) s.key id
              (s.partNums ++ [s.nextPart]) with
          | (sv2, none) =>
            ⟨{ s with buf := [], partNums := s.partNums ++ [s.nextPart],
                      nextPart := s.nextPart + 1, state := .Completed },
              sv2, none⟩
          | (sv2, some e) =>
            ⟨{ s with buf := [], partNums := s.partNums ++ [s.nextPart],
                      nextPart := s.nextPart + 1, state := .Aborted },
              abortUpload sv2 id, some e⟩
      else ⟨{ s with state := .Aborted }, abortUpload sv id,
        some .UploadError⟩

/-- Modelled from the spec: abort.  Only an `Open` sink may be aborted;
any initiated multipart upload is aborted server side so no orphaned state
remains, and the sink ends `Aborted`. -/
def sink_abort (c : client) (s : upload_sink) (sv : Server) : SinkStep :=
  if c.closed then ⟨s, sv, some .ClientClosed⟩
  else if s.state ≠ .Open then ⟨s, sv, some .SinkClosed⟩
  else
    match s.uploadId with
    | none => ⟨{ s with state := .Aborted }, sv, none⟩
    | some id => ⟨{ s with state := .Aborted }, abortUpload sv id, none⟩

/-- Feed the sink a list of chunks in order, stopping at the first
error. -/
def run_writes (c : client) (chunks : List (List Nat)) (s : upload_sink)
    (sv : Server) : SinkStep :=
  match chunks with
  | [] => ⟨s, sv, none⟩
  | ch :: rest =>
    match (sink_write c s sv ch).err with
    | some e =>
      ⟨(sink_write c s sv ch).sink, (sink_write c s sv ch).server, some e⟩
    | none =>
      run_writes c rest (sink_write c s sv ch).sink
        (sink_write c s sv ch).server

/-- Feed a fresh sink for key `k` the chunks in order and finalize over a
successful transport. -/
def upload_and_finalize (c : client) (k : String) (th : Nat)
    (chunks : List (List Nat)) (sv : Server) : SinkStep :=
  match (run_writes c chunks (make_upload_sink k th) sv).err with
  | some e =>
    ⟨(run_writes c chunks (make_upload_sink k th) sv).sink,
      (run_writes c chunks (make_upload_sink k th) sv).server, some e⟩
  | none =>
    sink_finalize c true (run_writes c chunks (make_upload_sink k th) sv).sink
      (run_writes c chunks (make_upload_sink k th) sv).server

/-- The sink state machine's edges as the spec draws them. -/
def sinkEdge : UploadState → UploadState → Prop := fun a b =>
  (a = .Open ∧ b = .Finalizing) ∨
    (a = .Finalizing ∧ (b = .Completed ∨ b = .Aborted))

/-- Reachability along the sink state machine's edges. -/
def sinkReach : UploadState → UploadState → Prop :=
  Relation.ReflTransGen sinkEdge

/-- The invariant tying an open sink to the server: the bytes of its
uploaded parts (in order) followed by its local buffer are exactly the
bytes written so far, and its recorded part numbers match the server's
stored upload. -/
def SinkInv (k : String) (th : Nat) (written : List Nat)
    (s : upload_sink) (sv : Server) : Prop :=
  s.key = k ∧ s.partThreshold = th ∧ s.state = .Open ∧ serverWF sv ∧
  match s.uploadId with
  | none => s.buf = written ∧ s.partNums = []
  | some id =>
    id < sv.nextId ∧
    ∃ ps, alookup sv.uploads id = some ps ∧
      ps.map Prod.fst = s.partNums ∧
      (ps.map Prod.snd).flatten ++ s.buf = written

theorem gatherBody_foldl (l : List (List Nat)) :
    ∀ acc : List Nat, l.foldl (fun acc b => acc ++ b) acc = acc ++ l.flatten := by
  induction l with
  | nil => intro acc; simp
  | cons h t ih => intro acc; simp [List.foldl_cons, ih]

/-- Claim C1: for every buffer B, key K and sub-range (off, len) lying
entirely within B, `get_object_contiguous K (off, len)` after a successful
`put_object K B` returns exactly the bytes `B[off : off + len]`. -/
theorem put_then_get_range (c : client) (sv : Server) (k : String)
    (b : List Nat) (off len : Nat) (hc : c.closed = false)
    (hlen : off + len ≤ b.length) :
    (put_object c sv k b).2 = none ∧
    get_object_contiguous c (put_object c sv k b).1 k (some ⟨off, len⟩) =
      .ok ((b.drop off).take len) := by
  have hnr : ¬ (b.length < off + len) := not_lt.mpr hlen
  have htk : ((b.drop off).take len).length = len := by
    simp only [List.length_take, List.length_drop]
    omega
  constructor
  · simp [put_object, hc]
  · simp [get_object_contiguous, get_object_wire, put_object, send_get,
      alookup, hc, hnr, htk]

theorem put_then_get_range_witness :
    (put_object ⟨"h", 80, none, false⟩ ⟨[], [], 0⟩ "k" [1, 2, 3, 4]).2 =
      none ∧
    get_object_contiguous ⟨"h", 80, none, false⟩
        (put_object ⟨"h", 80, none, false⟩ ⟨[], [], 0⟩ "k" [1, 2, 3, 4]).1
        "k" (some ⟨1, 2⟩) =
      .ok ((([1, 2, 3, 4] : List Nat).drop 1).take 2) :=
  put_then_get_range ⟨"h", 80, none, false⟩ ⟨[], [], 0⟩ "k" [1, 2, 3, 4]
    1 2 rfl (by decide)

/-- Claim C2: signing is a pure deterministic function of (credentials,
timestamp, canonical request descriptor): two clients agreeing on their
credentials produce identical `Authorization`, `x-amz-date` and
`x-amz-content-sha256` headers for the same timestamp and descriptor,
independent of any other client state (host, port, transport). -/
theorem authorize_deterministic (c₁ c₂ : client) (ts : String)
    (d : request_descriptor) (h : c₁.creds = c₂.creds) :
    authorize c₁ ts d = authorize c₂ ts d := by
  unfold authorize
  rw [h]

theorem authorize_deterministic_witness :
    authorize ⟨"alpha", 80, some ⟨"AK", "SK", "us-east-1"⟩, false⟩
        "20130524T000000Z" ⟨"GET", "/x", "", "host:h", "host", "h0"⟩ =
      authorize ⟨"beta", 9000, some ⟨"AK", "SK", "us-east-1"⟩, true⟩
        "20130524T000000Z" ⟨"GET", "/x", "", "host:h", "host", "h0"⟩ :=
  authorize_deterministic
    ⟨"alpha", 80, some ⟨"AK", "SK", "us-east-1"⟩, false⟩
    ⟨"beta", 9000, some ⟨"AK", "SK", "us-east-1"⟩, true⟩
    "20130524T000000Z" ⟨"GET", "/x", "", "host:h", "host", "h0"⟩ rfl

/-- Claim C6: a successful `put_object K B` followed by
`get_object_size K` returns exactly the length of B. -/
theorem put_then_size (c : client) (sv : Server) (k : String)
    (b : List Nat) (hc : c.closed = false) :
    (put_object c sv k b).2 = none ∧
    get_object_size c (put_object c sv k b).1 k = .ok b.length := by
  constructor
  · simp [put_object, hc]
  · simp [put_object, get_object_size, alookup, hc]

theorem put_then_size_witness :
    (put_object ⟨"h", 80, none, false⟩ ⟨[], [], 0⟩ "k" [7, 8, 9]).2 =
      none ∧
    get_object_size ⟨"h", 80, none, false⟩
        (put_object ⟨"h", 80, none, false⟩ ⟨[], [], 0⟩ "k" [7, 8, 9]).1
        "k" =
      .ok ([7, 8, 9] : List Nat).length :=
  put_then_size ⟨"h", 80, none, false⟩ ⟨[], [], 0⟩ "k" [7, 8, 9] rfl

/-- Claim C9: the two put_object overloads are equivalent: uploading an
ordered sequence of discontiguous regions stores exactly the same object
bytes as one contiguous put of their concatenation. -/
theorem put_object_overloads_equiv (c : client) (sv : Server) (k : String)
    (bufs : List (List Nat)) :
    put_object_bufs c sv k bufs = put_object c sv k bufs.flatten := by
  unfold put_object_bufs put_object gatherBody
  rw [gatherBody_foldl]
  simp

/-- Claim C10: `s3::range` holds the offset as an exact 64-bit unsigned
integer and the length as `size_t`: every offset up to 2^64 - 1 is
expressible (so objects beyond 4 GiB are fully addressable), a range value
carries no constructed-in invariant relating off and len to any object
size, and the validation against the object size happens inside the read
path. -/
theorem range_representation :
    (∀ o l : Nat, o < 2 ^ 64 → l < 2 ^ 64 →
      ∃ r : range, r.wf ∧ r.off = o ∧ r.len = l) ∧
    (∃ r : range, r.wf ∧ r.off = 2 ^ 64 - 1 ∧ 2 ^ 32 < r.off) ∧
    (∀ r : range, r.wf ↔ (r.off < 2 ^ 64 ∧ r.len < 2 ^ 64)) ∧
    (∀ (c : client) (sv : Server) (k : String) (obj : List Nat)
      (off len : Nat), c.closed = false →
      alookup sv.objects k = some obj → obj.length < off + len →
      get_object_contiguous c sv k (some ⟨off, len⟩) =
        .error .RangeError) := by
  refine ⟨fun o l ho hl => ⟨⟨o, l⟩, ⟨ho, hl⟩, rfl, rfl⟩,
    ⟨⟨2 ^ 64 - 1, 0⟩, ⟨by norm_num, by norm_num⟩, rfl, by norm_num⟩,
    fun r => Iff.rfl, ?_⟩
  intro c sv k obj off len hc hlook hover
  simp [get_object_contiguous, get_object_wire, send_get, hc, hlook, hover]

theorem send_get_ok_length (sv : Server) (k : String) (r : Option range)
    (tamper : List Nat → List Nat) (buf : List Nat)
    (h : (send_get sv k r tamper).2 = .ok buf) :
    buf.length = requested_len sv k r := by
  unfold send_get at h
  cases hob : alookup sv.objects k with
  | none => rw [hob] at h; simp at h
  | some obj =>
    rw [hob] at h
    cases r with
    | none =>
      simp only [requested_len, hob, Option.getD_some]
      by_cases hl : (tamper obj).length = obj.length
      · simp [hl] at h
        rw [← h, hl]
      · simp [hl] at h
    | some rg =>
      simp only [requested_len]
      by_cases hrange : obj.length < rg.off + rg.len
      · simp [hrange] at h
      · by_cases hl : (tamper ((obj.drop rg.off).take rg.len)).length = rg.len
        · simp [hrange, hl] at h
          rw [← h, hl]
        · simp [hrange, hl] at h

/-- Claim C3: `get_object_contiguous` never returns a success shorter than
requested: a successful result of the GET path has length exactly the
requested length (the full object length when no range is given), whatever
bytes the transport actually delivered; a short delivery surfaces as
`TruncatedResponse`, never as short data. -/
theorem get_never_short (c : client) (sv : Server) (k : String)
    (r : Option range) (ks : Option Nat) (tamper : List Nat → List Nat)
    (buf : List Nat)
    (h : (get_object_wire c sv k r ks tamper).2 = .ok buf) :
    buf.length = requested_len sv k r := by
  unfold get_object_wire at h
  by_cases hc : c.closed
  · simp [hc] at h
  · simp only [hc, if_false, Bool.false_eq_true] at h
    cases ks with
    | none => exact send_get_ok_length sv k r tamper buf h
    | some sz =>
      cases r with
      | none => exact send_get_ok_length sv k none tamper buf h
      | some rg =>
        by_cases hover : sz < rg.off + rg.len
        · simp [hover] at h
        · simp only [hover, if_false] at h
          exact send_get_ok_length sv k (some rg) tamper buf h

theorem get_never_short_witness :
    ([5, 6] : List Nat).length =
      requested_len ⟨[("k", [5, 6, 7])], [], 0⟩ "k" (some ⟨0, 2⟩) :=
  get_never_short ⟨"h", 80, none, false⟩ ⟨[("k", [5, 6, 7])], [], 0⟩ "k"
    (some ⟨0, 2⟩) none id [5, 6] rfl

/-- Claim C7: after close() completes, every operation on the client or on
any readable file or upload sink derived from it fails with `ClientClosed`:
no request reaches the transport and no state changes. -/
theorem close_rejects_all (c : client) (sv : Server) (k : String)
    (b : List Nat) (bufs : List (List Nat)) (r : Option range)
    (ks : Option Nat) (tamper : List Nat → List Nat) (f : readable_file)
    (off len : Nat) (s : upload_sink) (chunk : List Nat) (ok : Bool) :
    get_object_size (close c) sv k = .error .ClientClosed ∧
    get_object_wire (close c) sv k r ks tamper =
      ([], .error .ClientClosed) ∧
    get_object_contiguous (close c) sv k r = .error .ClientClosed ∧
    put_object (close c) sv k b = (sv, some .ClientClosed) ∧
    put_object_bufs (close c) sv k bufs = (sv, some .ClientClosed) ∧
    delete_object (close c) sv k = (sv, some .ClientClosed) ∧
    file_read (close c) sv f off len = .error .ClientClosed ∧
    sink_write (close c) s sv chunk = ⟨s, sv, some .ClientClosed⟩ ∧
    sink_finalize (close c) ok s sv = ⟨s, sv, some .ClientClosed⟩ ∧
    sink_abort (close c) s sv = ⟨s, sv, some .ClientClosed⟩ := by
  refine ⟨?_, ?_, ?_, ?_, ?_, ?_, ?_, ?_, ?_, ?_⟩ <;>
    simp [close, get_object_size, get_object_wire, get_object_contiguous,
      put_object, put_object_bufs, delete_object, file_read, sink_write,
      sink_finalize, sink_abort]

/-- Claim C8: a ranged read whose end exceeds the already-known object
size fails with `RangeError` before any request is sent; when the size is
not yet known the same out-of-bounds condition is detected from the
server's response to the one request sent and still reported as
`RangeError`. -/
theorem range_error_detection (c : client) (sv : Server) (k : String)
    (off len sz : Nat) (tamper : List Nat → List Nat) (obj : List Nat)
    (hc : c.closed = false) :
    (sz < off + len →
      get_object_wire c sv k (some ⟨off, len⟩) (some sz) tamper =
        ([], .error .RangeError)) ∧
    (alookup sv.objects k = some obj → obj.length < off + len →
      get_object_wire c sv k (some ⟨off, len⟩) none tamper =
        ([⟨"GET", k, some ⟨off, len⟩⟩], .error .RangeError)) := by
  constructor
  · intro hover
    simp [get_object_wire, hc, hover]
  · intro hlook hover
    simp [get_object_wire, send_get, hc, hlook, hover]

theorem range_error_detection_witness :
    (3 < 1 + 3 →
      get_object_wire ⟨"h", 80, none, false⟩ ⟨[("k", [5, 6, 7])], [], 0⟩
          "k" (some ⟨1, 3⟩) (some 3) id =
        ([], .error .RangeError)) ∧
    (alookup (⟨[("k", [5, 6, 7])], [], 0⟩ : Server).objects "k" =
        some [5, 6, 7] →
      (3 : Nat) < 1 + 3 →
      get_object_wire ⟨"h", 80, none, false⟩ ⟨[("k", [5, 6, 7])], [], 0⟩
          "k" (some ⟨1, 3⟩) none id =
        ([⟨"GET", "k", some ⟨1, 3⟩⟩], .error .RangeError)) :=
  range_error_detection ⟨"h", 80, none, false⟩ ⟨[("k", [5, 6, 7])], [], 0⟩
    "k" 1 3 3 id [5, 6, 7] rfl

theorem sink_write_state (c : client) (s : upload_sink) (sv : Server)
    (chunk : List Nat) : (sink_write c s sv chunk).sink.state = s.state := by
  unfold sink_write
  split
  · rfl
  · split
    · rfl
    · split
      · cases s.uploadId <;> rfl
      · rfl

theorem sink_finalize_terminal (c : client) (ok : Bool) (s : upload_sink)
    (sv : Server) (hc : c.closed = false) (hs : s.state = .Open) :
    (sink_finalize c ok s sv).sink.state = .Completed ∨
      (sink_finalize c ok s sv).sink.state = .Aborted := by
  unfold sink_finalize
  simp only [hc, Bool.false_eq_true, if_false, hs, ne_eq,
    not_true_eq_false]
  cases hu : s.uploadId with
  | none => cases ok <;> simp
  | some id =>
    cases ok with
    | false => simp
    | true =>
      by_cases hbe : s.buf.isEmpty
      · simp only [hbe, if_true, Bool.true_eq_false]
        rcases hcu : completeUpload sv s.key id s.partNums with ⟨sv2, e⟩
        cases e <;> simp [hcu]
      · simp only [hbe, if_false, Bool.true_eq_false]
        rcases hcu : completeUpload (addPart sv id s.nextPart s.buf) s.key
            id (s.partNums ++ [s.nextPart]) with ⟨sv2, e⟩
        cases e <;> simp [hcu]

theorem sink_abort_state (c : client) (s : upload_sink) (sv : Server)
    (hc : c.closed = false) (hs : s.state = .Open) :
    (sink_abort c s sv).sink.state = .Aborted := by
  unfold sink_abort
  simp only [hc, Bool.false_eq_true, if_false, hs, ne_eq,
    not_true_eq_false]
  cases s.uploadId <;> simp

theorem sinkReach_open_completed :
    sinkReach .Open .Completed :=
  Relation.ReflTransGen.tail
    (Relation.ReflTransGen.single (Or.inl ⟨rfl, rfl⟩))
    (Or.inr ⟨rfl, Or.inl rfl⟩)

theorem sinkReach_open_aborted :
    sinkReach .Open .Aborted :=
  Relation.ReflTransGen.tail
    (Relation.ReflTransGen.single (Or.inl ⟨rfl, rfl⟩))
    (Or.inr ⟨rfl, Or.inr rfl⟩)

/-- Claim C5: the sink moves only along
Open to Finalizing to Completed or Aborted; every write issued in a
non-Open state fails with `SinkClosed` leaving both sink and server
untouched; finalize and abort each take effect at most once (from Open the
sink always ends terminal), and invoking them again on a terminal sink is
a clean failure that changes nothing and re-sends no data. -/
theorem sink_state_machine (c : client) (s : upload_sink) (sv : Server)
    (chunk : List Nat) (ok : Bool) (hc : c.closed = false) :
    (s.state ≠ .Open →
      sink_write c s sv chunk = ⟨s, sv, some .SinkClosed⟩) ∧
    (s.state ≠ .Open →
      sink_finalize c ok s sv = ⟨s, sv, some .SinkClosed⟩) ∧
    (s.state ≠ .Open → sink_abort c s sv = ⟨s, sv, some .SinkClosed⟩) ∧
    (s.state = .Open →
      (sink_finalize c ok s sv).sink.state = .Completed ∨
        (sink_finalize c ok s sv).sink.state = .Aborted) ∧
    (s.state = .Open → (sink_abort c s sv).sink.state = .Aborted) ∧
    sinkReach s.state (sink_write c s sv chunk).sink.state ∧
    sinkReach s.state (sink_finalize c ok s sv).sink.state ∧
    sinkReach s.state (sink_abort c s sv).sink.state := by
  have hw : s.state ≠ .Open →
      sink_write c s sv chunk = ⟨s, sv, some .SinkClosed⟩ := by
    intro h; unfold sink_write; simp [hc, h]
  have hf : s.state ≠ .Open →
      sink_finalize c ok s sv = ⟨s, sv, some .SinkClosed⟩ := by
    intro h; unfold sink_finalize; simp [hc, h]
  have ha : s.state ≠ .Open →
      sink_abort c s sv = ⟨s, sv, some .SinkClosed⟩ := by
    intro h; unfold sink_abort; simp [hc, h]
  refine ⟨hw, hf, ha,
    fun hs => sink_finalize_terminal c ok s sv hc hs,
    fun hs => sink_abort_state c s sv hc hs, ?_, ?_, ?_⟩
  · rw [sink_write_state]
    exact Relation.ReflTransGen.refl
  · by_cases hs : s.state = .Open
    · rcases sink_finalize_terminal c ok s sv hc hs with h | h <;>
        rw [h, hs]
      · exact sinkReach_open_completed
      · exact sinkReach_open_aborted
    · rw [hf hs]
      exact Relation.ReflTransGen.refl
  · by_cases hs : s.state = .Open
    · rw [sink_abort_state c s sv hc hs, hs]
      exact sinkReach_open_aborted
    · rw [ha hs]
      exact Relation.ReflTransGen.refl

theorem sink_state_machine_witness :
    ((⟨"k", 4, [], .Completed, none, [], 1⟩ : upload_sink).state ≠ .Open →
      sink_write ⟨"h", 80, none, false⟩
          ⟨"k", 4, [], .Completed, none, [], 1⟩ ⟨[], [], 0⟩ [1, 2] =
        ⟨⟨"k", 4, [], .Completed, none, [], 1⟩, ⟨[], [], 0⟩,
          some .SinkClosed⟩) ∧
    ((⟨"k", 4, [], .Completed, none, [], 1⟩ : upload_sink).state ≠ .Open →
      sink_finalize ⟨"h", 80, none, false⟩ true
          ⟨"k", 4, [], .Completed, none, [], 1⟩ ⟨[], [], 0⟩ =
        ⟨⟨"k", 4, [], .Completed, none, [], 1⟩, ⟨[], [], 0⟩,
          some .SinkClosed⟩) ∧
    ((⟨"k", 4, [], .Completed, none, [], 1⟩ : upload_sink).state ≠ .Open →
      sink_abort ⟨"h", 80, none, false⟩
          ⟨"k", 4, [], .Completed, none, [], 1⟩ ⟨[], [], 0⟩ =
        ⟨⟨"k", 4, [], .Completed, none, [], 1⟩, ⟨[], [], 0⟩,
          some .SinkClosed⟩) ∧
    ((⟨"k", 4, [], .Completed, none, [], 1⟩ : upload_sink).state = .Open →
      (sink_finalize ⟨"h", 80, none, false⟩ true
          ⟨"k", 4, [], .Completed, none, [], 1⟩
          ⟨[], [], 0⟩).sink.state = .Completed ∨
        (sink_finalize ⟨"h", 80, none, false⟩ true
            ⟨"k", 4, [], .Completed, none, [], 1⟩
            ⟨[], [], 0⟩).sink.state = .Aborted) ∧
    ((⟨"k", 4, [], .Completed, none, [], 1⟩ : upload_sink).state = .Open →
      (sink_abort ⟨"h", 80, none, false⟩
          ⟨"k", 4, [], .Completed, none, [], 1⟩
          ⟨[], [], 0⟩).sink.state = .Aborted) ∧
    sinkReach (⟨"k", 4, [], .Completed, none, [], 1⟩ : upload_sink).state
      (sink_write ⟨"h", 80, none, false⟩
          ⟨"k", 4, [], .Completed, none, [], 1⟩ ⟨[], [], 0⟩
          [1, 2]).sink.state ∧
    sinkReach (⟨"k", 4, [], .Completed, none, [], 1⟩ : upload_sink).state
      (sink_finalize ⟨"h", 80, none, false⟩ true
          ⟨"k", 4, [], .Completed, none, [], 1⟩ ⟨[], [], 0⟩).sink.state ∧
    sinkReach (⟨"k", 4, [], .Completed, none, [], 1⟩ : upload_sink).state
      (sink_abort ⟨"h", 80, none, false⟩
          ⟨"k", 4, [], .Completed, none, [], 1⟩ ⟨[], [], 0⟩).sink.state :=
  sink_state_machine ⟨"h", 80, none, false⟩
    ⟨"k", 4, [], .Completed, none, [], 1⟩ ⟨[], [], 0⟩ [1, 2] true rfl

theorem alookup_map_addpart (l : List (Nat × List (Nat × List Nat)))
    (id n : Nat) (bytes : List Nat) (j : Nat) :
    alookup
        (l.map fun p => if p.1 = id then (p.1, p.2 ++ [(n, bytes)]) else p)
        j =
      if j = id then (alookup l j).map (fun ps => ps ++ [(n, bytes)])
      else alookup l j := by
  induction l with
  | nil => simp [alookup]
  | cons hd t ih =>
    obtain ⟨x, b⟩ := hd
    simp only [List.map_cons]
    by_cases hx : x = id
    · subst hx
      simp only [if_pos rfl]
      by_cases hj : x = j
      · subst hj
        simp [alookup]
      · have hj2 : ¬ j = x := fun h => hj h.symm
        simp [alookup, hj, hj2, ih]
    · simp only [if_neg hx]
      by_cases hj : x = j
      · subst hj
        have hj2 : ¬ x = id := hx
        simp [alookup, hj2]
      · have hj2 : ¬ j = x := fun h => hj h.symm
        simp [alookup, hx, hj, hj2, ih]

theorem serverWF_addPart (sv : Server) (id n : Nat) (bytes : List Nat)
    (h : serverWF sv) : serverWF (addPart sv id n bytes) := by
  intro p hp
  simp only [addPart, List.mem_map] at hp
  obtain ⟨q, hq, rfl⟩ := hp
  by_cases hx : q.1 = id
  · simpa [addPart, hx] using h q hq
  · simpa [addPart, hx] using h q hq

theorem sink_write_inv (c : client) (k : String) (th : Nat)
    (w chunk : List Nat) (s : upload_sink) (sv : Server)
    (hc : c.closed = false) (hI : SinkInv k th w s sv) :
    (sink_write c s sv chunk).err = none ∧
    SinkInv k th (w ++ chunk) (sink_write c s sv chunk).sink
      (sink_write c s sv chunk).server := by
  obtain ⟨hkey, hth, hstate, hwf, hrest⟩ := hI
  unfold sink_write
  simp only [hc, Bool.false_eq_true, if_false, hstate, ne_eq,
    not_true_eq_false]
  by_cases hfl : s.partThreshold ≤ (s.buf ++ chunk).length
  · simp only [hfl, if_true]
    cases hu : s.uploadId with
    | none =>
      rw [hu] at hrest
      obtain ⟨hbuf, hparts⟩ := hrest
      refine ⟨rfl, hkey, hth, rfl, ?_, ?_⟩
      · apply serverWF_addPart
        intro p hp
        simp only [List.mem_cons] at hp
        rcases hp with rfl | hp
        · exact Nat.lt_succ_self _
        · exact Nat.lt_succ_of_lt (hwf p hp)
      · refine ⟨Nat.lt_succ_self _,
          [(s.nextPart, s.buf ++ chunk)], ?_, ?_, ?_⟩
        · have h1 : alookup ((sv.nextId, []) :: sv.uploads) sv.nextId =
              some ([] : List (Nat × List Nat)) := by simp [alookup]
          have h2 : (addPart
              { sv with uploads := (sv.nextId, []) :: sv.uploads,
                        nextId := sv.nextId + 1 }
              sv.nextId s.nextPart (s.buf ++ chunk)).uploads =
              ((sv.nextId, []) :: sv.uploads).map
                (fun p => if p.1 = sv.nextId then
                  (p.1, p.2 ++ [(s.nextPart, s.buf ++ chunk)]) else p) :=
            rfl
          rw [h2, alookup_map_addpart]
          simp [h1]
        · simp [hparts]
        · simp [hbuf]
    | some id =>
      rw [hu] at hrest
      obtain ⟨hlt, ps, hlook, hfst, hflat⟩ := hrest
      refine ⟨rfl, hkey, hth, rfl, serverWF_addPart sv id s.nextPart
        (s.buf ++ chunk) hwf, ?_⟩
      refine ⟨hlt, ps ++ [(s.nextPart, s.buf ++ chunk)], ?_, ?_, ?_⟩
      · have h2 : (addPart sv id s.nextPart (s.buf ++ chunk)).uploads =
            sv.uploads.map
              (fun p => if p.1 = id then
                (p.1, p.2 ++ [(s.nextPart, s.buf ++ chunk)]) else p) :=
          rfl
        rw [h2, alookup_map_addpart]
        simp [hlook]
      · simp [hfst]
      · simp only [List.map_append, List.flatten_append, List.map_cons,
          List.map_nil, List.flatten_cons, List.flatten_nil,
          List.append_nil]
        rw [← List.append_assoc, hflat]
  · simp only [hfl, if_false]
    refine ⟨by trivial, hkey, hth, by trivial, hwf, ?_⟩
    cases hu : s.uploadId with
    | none =>
      rw [hu] at hrest
      obtain ⟨hbuf, hparts⟩ := hrest
      exact ⟨by rw [hbuf], hparts⟩
    | some id =>
      rw [hu] at hrest
      obtain ⟨hlt, ps, hlook, hfst, hflat⟩ := hrest
      exact ⟨hlt, ps, hlook, hfst, by rw [← List.append_assoc, hflat]⟩

theorem run_writes_inv (c : client) (k : String) (th : Nat)
    (hc : c.closed = false) :
    ∀ (chunks : List (List Nat)) (w : List Nat) (s : upload_sink)
      (sv : Server), SinkInv k th w s sv →
      (run_writes c chunks s sv).err = none ∧
      SinkInv k th (w ++ chunks.flatten) (run_writes c chunks s sv).sink
        (run_writes c chunks s sv).server := by
  intro chunks
  induction chunks with
  | nil =>
    intro w s sv hI
    exact ⟨rfl, by simpa using hI⟩
  | cons ch rest ih =>
    intro w s sv hI
    obtain ⟨herr, hI1⟩ := sink_write_inv c k th w ch s sv hc hI
    have hred : run_writes c (ch :: rest) s sv =
        run_writes c rest (sink_write c s sv ch).sink
          (sink_write c s sv ch).server := by
      simp only [run_writes, herr]
    rw [hred]
    obtain ⟨h2, hI2⟩ := ih (w ++ ch) _ _ hI1
    exact ⟨h2, by simpa [List.flatten_cons, List.append_assoc] using hI2⟩

theorem sink_finalize_inv (c : client) (k : String) (th : Nat)
    (w : List Nat) (s : upload_sink) (sv : Server) (hc : c.closed = false)
    (hI : SinkInv k th w s sv) :
    (sink_finalize c true s sv).err = none ∧
    alookup (sink_finalize c true s sv).server.objects k = some w := by
  obtain ⟨hkey, hth, hstate, hwf, hrest⟩ := hI
  unfold sink_finalize
  simp only [hc, Bool.false_eq_true, if_false, hstate, ne_eq,
    not_true_eq_false, if_true]
  cases hu : s.uploadId with
  | none =>
    rw [hu] at hrest
    obtain ⟨hbuf, hparts⟩ := hrest
    exact ⟨rfl, by simp [alookup, hkey, hbuf]⟩
  | some id =>
    rw [hu] at hrest
    obtain ⟨hlt, ps, hlook, hfst, hflat⟩ := hrest
    by_cases hbe : s.buf.isEmpty
    · have hb : s.buf = [] := by simpa [List.isEmpty_iff] using hbe
      rw [hb, List.append_nil] at hflat
      have hcu : completeUpload sv s.key id s.partNums =
          ({ sv with objects :=
              (s.key, (ps.map Prod.snd).flatten) :: sv.objects }, none) := by
        simp [completeUpload, hlook, hfst]
      simp only [hbe, if_true, hcu]
      exact ⟨by trivial, by simp [alookup, hkey, hflat]⟩
    · have hlook2 : alookup (addPart sv id s.nextPart s.buf).uploads id =
          some (ps ++ [(s.nextPart, s.buf)]) := by
        have h2 : (addPart sv id s.nextPart s.buf).uploads =
            sv.uploads.map
              (fun p => if p.1 = id then
                (p.1, p.2 ++ [(s.nextPart, s.buf)]) else p) := rfl
        rw [h2, alookup_map_addpart]
        simp [hlook]
      have hcu : completeUpload (addPart sv id s.nextPart s.buf) s.key id
          (s.partNums ++ [s.nextPart]) =
          ({ addPart sv id s.nextPart s.buf with objects :=
              (s.key,
                ((ps ++ [(s.nextPart, s.buf)]).map Prod.snd).flatten) ::
                (addPart sv id s.nextPart s.buf).objects }, none) := by
        simp [completeUpload, hlook2, hfst]
      simp only [hbe, if_false, hcu]
      refine ⟨by trivial, ?_⟩
      have hobj : ((ps ++ [(s.nextPart, s.buf)]).map Prod.snd).flatten =
          w := by
        simp only [List.map_append, List.flatten_append, List.map_cons,
          List.map_nil, List.flatten_cons, List.flatten_nil,
          List.append_nil]
        exact hflat
      simp [addPart, alookup, hkey, hobj, hflat]

/-- Claim C4: feeding an upload sink the bytes B as one write and
finalizing produces the same final object content as feeding the same
bytes as many small writes (crossing the multipart threshold or not) and
finalizing: the stored object bytes are identical, namely B itself. -/
theorem upload_single_vs_multipart (c : client) (k : String) (th : Nat)
    (sv : Server) (b : List Nat) (chunks : List (List Nat))
    (hc : c.closed = false) (hwf : serverWF sv)
    (hb : chunks.flatten = b) :
    (upload_and_finalize c k th [b] sv).err = none ∧
    (upload_and_finalize c k th chunks sv).err = none ∧
    alookup (upload_and_finalize c k th [b] sv).server.objects k =
      some b ∧
    alookup (upload_and_finalize c k th chunks sv).server.objects k =
      alookup (upload_and_finalize c k th [b] sv).server.objects k := by
  have hInit : SinkInv k th [] (make_upload_sink k th) sv :=
    ⟨rfl, rfl, rfl, hwf, rfl, rfl⟩
  have main : ∀ cs : List (List Nat),
      (upload_and_finalize c k th cs sv).err = none ∧
      alookup (upload_and_finalize c k th cs sv).server.objects k =
        some cs.flatten := by
    intro cs
    obtain ⟨herr, hI⟩ := run_writes_inv c k th hc cs [] _ sv hInit
    have hred : upload_and_finalize c k th cs sv =
        sink_finalize c true
          (run_writes c cs (make_upload_sink k th) sv).sink
          (run_writes c cs (make_upload_sink k th) sv).server := by
      unfold upload_and_finalize
      rw [herr]
    rw [hred]
    have hI2 : SinkInv k th cs.flatten
        (run_writes c cs (make_upload_sink k th) sv).sink
        (run_writes c cs (make_upload_sink k th) sv).server := by
      simpa using hI
    exact sink_finalize_inv c k th cs.flatten _ _ hc hI2
  obtain ⟨h1, h2⟩ := main [b]
  obtain ⟨h3, h4⟩ := main chunks
  have hfb : ([b] : List (List Nat)).flatten = b := by simp
  rw [hfb] at h2
  rw [hb] at h4
  exact ⟨h1, h3, h2, h4.trans h2.symm⟩

theorem upload_single_vs_multipart_witness :
    (upload_and_finalize ⟨"h", 80, none, false⟩ "k" 2 [[1, 2, 3]]
        ⟨[], [], 0⟩).err = none ∧
    (upload_and_finalize ⟨"h", 80, none, false⟩ "k" 2 [[1], [2, 3]]
        ⟨[], [], 0⟩).err = none ∧
    alookup (upload_and_finalize ⟨"h", 80, none, false⟩ "k" 2 [[1, 2, 3]]
        ⟨[], [], 0⟩).server.objects "k" = some [1, 2, 3] ∧
    alookup (upload_and_finalize ⟨"h", 80, none, false⟩ "k" 2
        [[1], [2, 3]] ⟨[], [], 0⟩).server.objects "k" =
      alookup (upload_and_finalize ⟨"h", 80, none, false⟩ "k" 2
          [[1, 2, 3]] ⟨[], [], 0⟩).server.objects "k" :=
  upload_single_vs_multipart ⟨"h", 80, none, false⟩ "k" 2 ⟨[], [], 0⟩
    [1, 2, 3] [[1], [2, 3]] rfl (by intro p hp; simp at hp) rfl

end s3
